import Mathlib

/-!
Verification of the Pack Howl voice/chat relay (server `server.py`, client
`client/audio_engine.py`, `client/network.py`) against its natural-language
specification.  The Python code is shallowly embedded: dictionaries become
association lists with first-match lookup, `time.time()` values and the
float constants compared against them become rationals, and the JSON values
the server manipulates become an inductive type.  External libraries
(`json.loads`, the Opus codec) are abstracted as inputs: a received line
carries its byte length and the outcome of parsing it, a decode step is an
arbitrary function into `Option`.
-/

namespace PackHowl

/-! ## JSON values and objects (the shapes `json.loads` hands the server) -/

/-- A JSON scalar value as the server reads fields out of a parsed message.
`jstr` / `jbool` / `jnum` / `jnull` mirror the Python `str` / `bool` /
number / `None` cases that `isinstance` checks distinguish. -/
inductive JVal : Type
  | jstr (s : String)
  | jbool (b : Bool)
  | jnum (q : ℚ)
  | jnull
  deriving DecidableEq, Repr

/-- A parsed JSON object: field names to values, in insertion order. -/
abbrev JObj := List (String × JVal)

/-- Python `msg.get(k)`: the first binding of `k`, or `None`
(`jget` is the object-level instance of `alookup` below). -/
def jget : JObj → String → Option JVal
  | [], _ => none
  | p :: rest, k => if p.1 = k then some p.2 else jget rest k

/-- Python truthiness of a stored JSON value (`bool(v)`): a non-empty
string, `True`, and a non-zero number are truthy. -/
def truthy : JVal → Bool
  | .jstr s => !(s == "")
  | .jbool b => b
  | .jnum q => !(q == 0)
  | .jnull => false

/-- Serialization of one scalar, as `json.dumps` renders it. -/
def jvalDump : JVal → String
  | .jstr s => "\"" ++ s ++ "\""
  | .jbool true => "true"
  | .jbool false => "false"
  | .jnum q => toString q
  | .jnull => "null"

/-- Serialization of a flat object, as `json.dumps` renders it (default
separators, insertion order). -/
def jdumps (m : JObj) : String :=
  "\x7b" ++ String.intercalate ", "
    (m.map (fun p => "\"" ++ p.1 ++ "\": " ++ jvalDump p.2)) ++ "\x7d"

/-! ## Association-list operations (Python `dict` keyed by strings)

Python dictionaries have unique keys; the embedding keeps bindings in a
list, reads with first-match lookup, writes by replacing the first binding
in place (appending when the key is new), and deletes by filtering.  On
lists whose keys are distinct this is observationally the `dict`. -/

/-- Python `d[k]` / `d.get(k)`: first binding of the key. -/
def alookup {α : Type} : List (String × α) → String → Option α
  | [], _ => none
  | p :: rest, k => if p.1 = k then some p.2 else alookup rest k

/-- Python `k in d`. -/
def amem {α : Type} (l : List (String × α)) (k : String) : Bool :=
  (alookup l k).isSome

/-- Python `d[k] = v`: replace the first binding in place, else append. -/
def aset {α : Type} : List (String × α) → String → α → List (String × α)
  | [], k, v => [(k, v)]
  | p :: rest, k, v =>
      if p.1 = k then (k, v) :: rest else p :: aset rest k v

/-- Python `del d[k]` / `d.pop(k, None)`: drop the key's bindings. -/
def aerase {α : Type} : List (String × α) → String → List (String × α)
  | [], _ => []
  | p :: rest, k => if p.1 = k then aerase rest k else p :: aerase rest k

/-- Python `d[k].f = ...`: update the value bound to `k` in place. -/
def amodify {α : Type} : List (String × α) → String → (α → α) → List (String × α)
  | [], _, _ => []
  | p :: rest, k, f =>
      if p.1 = k then (p.1, f p.2) :: amodify rest k f
      else p :: amodify rest k f

/-- Keys of the association list, in order. -/
def akeys {α : Type} (l : List (String × α)) : List String := l.map (·.1)

theorem alookup_aset_self {α : Type} (l : List (String × α)) (k : String) (v : α) :
    alookup (aset l k v) k = some v := by
  induction l with
  | nil => simp [aset, alookup]
  | cons p rest ih =>
      by_cases h : p.1 = k
      · simp [aset, h, alookup]
      · simpa [aset, h, alookup] using ih

theorem alookup_aset_ne {α : Type} (l : List (String × α)) (k k2 : String) (v : α)
    (h : k2 ≠ k) : alookup (aset l k v) k2 = alookup l k2 := by
  induction l with
  | nil => simp [aset, alookup, Ne.symm h]
  | cons p rest ih =>
      by_cases hp : p.1 = k
      · simp [aset, hp, alookup, Ne.symm h]
      · by_cases hq : p.1 = k2
        · simp [aset, hp, alookup, hq, h, Ne.symm h]
        · simpa [aset, hp, alookup, hq] using ih

theorem alookup_aerase_self {α : Type} (l : List (String × α)) (k : String) :
    alookup (aerase l k) k = none := by
  induction l with
  | nil => rfl
  | cons p rest ih =>
      by_cases h : p.1 = k
      · simpa [aerase, h] using ih
      · simpa [aerase, h, alookup] using ih

theorem alookup_aerase_ne {α : Type} (l : List (String × α)) (k k2 : String)
    (h : k2 ≠ k) : alookup (aerase l k) k2 = alookup l k2 := by
  induction l with
  | nil => rfl
  | cons p rest ih =>
      by_cases hp : p.1 = k
      · have hq : p.1 ≠ k2 := by rw [hp]; exact Ne.symm h
        simpa [aerase, hp, alookup, hq, h, Ne.symm h] using ih
      · by_cases hq : p.1 = k2
        · simp [aerase, hp, alookup, hq, h, Ne.symm h]
        · simpa [aerase, hp, alookup, hq] using ih

theorem aerase_of_not_mem {α : Type} (l : List (String × α)) (k : String)
    (h : k ∉ akeys l) : aerase l k = l := by
  induction l with
  | nil => rfl
  | cons p rest ih =>
      have hp : p.1 ≠ k := by
        intro he; exact h (by simp [akeys, he])
      have hr : k ∉ akeys rest := by
        intro hm
        exact h (by simp [akeys] at hm ⊢; exact Or.inr hm)
      simp [aerase, hp, ih hr]

theorem akeys_amodify {α : Type} (l : List (String × α)) (k : String) (f : α → α) :
    akeys (amodify l k f) = akeys l := by
  induction l with
  | nil => rfl
  | cons p rest ih =>
      by_cases h : p.1 = k
      · simpa [amodify, h, akeys] using ih
      · simpa [amodify, h, akeys] using ih

theorem alookup_amodify_self {α : Type} (l : List (String × α)) (k : String)
    (f : α → α) (v : α) (h : alookup l k = some v) :
    alookup (amodify l k f) k = some (f v) := by
  induction l with
  | nil => simp [alookup] at h
  | cons p rest ih =>
      by_cases hp : p.1 = k
      · rw [alookup, if_pos hp] at h
        injection h with h
        simp [amodify, hp, alookup, h]
      · rw [alookup, if_neg hp] at h
        simpa [amodify, hp, alookup] using ih h

theorem alookup_amodify_ne {α : Type} (l : List (String × α)) (k k2 : String)
    (f : α → α) (h : k2 ≠ k) :
    alookup (amodify l k f) k2 = alookup l k2 := by
  induction l with
  | nil => rfl
  | cons p rest ih =>
      by_cases hp : p.1 = k
      · have hq : p.1 ≠ k2 := by rw [hp]; exact Ne.symm h
        simpa [amodify, hp, alookup, hq, h, Ne.symm h] using ih
      · by_cases hq : p.1 = k2
        · simp [amodify, hp, alookup, hq, h, Ne.symm h]
        · simpa [amodify, hp, alookup, hq] using ih

theorem length_amodify {α : Type} (l : List (String × α)) (k : String) (f : α → α) :
    (amodify l k f).length = l.length := by
  induction l with
  | nil => rfl
  | cons p rest ih =>
      by_cases h : p.1 = k
      · simpa [amodify, h] using ih
      · simpa [amodify, h] using ih

theorem length_aerase_le {α : Type} (l : List (String × α)) (k : String) :
    (aerase l k).length ≤ l.length := by
  induction l with
  | nil => exact Nat.le_refl _
  | cons p rest ih =>
      by_cases h : p.1 = k
      · simp only [aerase, h, if_true]
        exact Nat.le_succ_of_le ih
      · simp only [aerase, h, if_false, List.length_cons]
        exact Nat.succ_le_succ ih

theorem length_aset_le {α : Type} (l : List (String × α)) (k : String) (v : α) :
    (aset l k v).length ≤ l.length + 1 := by
  induction l with
  | nil => simp [aset]
  | cons p rest ih =>
      by_cases h : p.1 = k
      · simp [aset, h]
      · simp only [aset, h, if_false, List.length_cons]
        exact Nat.succ_le_succ ih

/-! ## Server data structures (`server.py`)

`ClientInfo` is the dataclass of server.py lines 79-92: the stream
reader/writer are replaced by explicit send events, `time.time()` values by
rationals.  The `muted` / `spk_muted` attributes are dynamically typed in
Python (the `init` handler stores raw JSON values into them unchecked), so
they are embedded as `JVal`. -/

structure ClientInfo where
  cn : String
  ip : String
  connected_at : ℚ := 0
  tx : Bool := false
  muted : JVal := .jbool false
  spk_muted : JVal := .jbool false
  last_audio : ℚ := 0
  deriving DecidableEq, Repr

/-- `self.clients : Dict[str, ClientInfo]`, keyed by CN. -/
abbrev Registry := List (String × ClientInfo)

/-- `config.MAX_USERS`. -/
def MAX_USERS : ℕ := 15

/-- `self.blocked_ips : Dict[str, float]`, IP to the time the block was set. -/
abbrev Blocklist := List (String × ℚ)

/-- A line written to one peer's TLS stream: destination CN and the bytes. -/
structure Send where
  dest : String
  payload : String
  deriving DecidableEq, Repr

/-! ## Access authentication (server.py, `handle_client` lines 163-188) -/

/-- Outcome of the connection-acceptance prologue of `handle_client`. -/
inductive AuthResult : Type
  | denyBlocked
  | denyCn
  | allow
  deriving DecidableEq, Repr

/-- Identity extraction, server.py line 180:
`cn = cert["subject"][0][0][1] if cert else "UNKNOWN"`. -/
def certIdentity : Option String → String
  | some cn => cn
  | none => "UNKNOWN"

/-- The CN-whitelist step, server.py lines 179-188: extract the identity;
an identity outside the whitelist records `ip → now` in the blocklist and
denies, otherwise the connection is allowed. -/
def authCn (wl : List String) (blocked : Blocklist) (ip : String)
    (cert : Option String) (now : ℚ) : AuthResult × Blocklist :=
  let cn := certIdentity cert
  if cn ∈ wl then (.allow, blocked)
  else (.denyCn, aset blocked ip now)

/-- The connection-acceptance prologue, server.py lines 163-188: the IP
blocklist is consulted first — an unexpired entry denies without touching
the certificate; an expired entry is deleted (`del self.blocked_ips`) and
the certificate is then checked against the whitelist. -/
def authenticate (wl : List String) (dur : ℚ) (blocked : Blocklist)
    (ip : String) (cert : Option String) (now : ℚ) : AuthResult × Blocklist :=
  match alookup blocked ip with
  | some ts =>
      if now - ts < dur then (.denyBlocked, blocked)
      else authCn wl (aerase blocked ip) ip cert now
  | none => authCn wl blocked ip cert now

/-- The periodic blocklist sweep, server.py lines 365-372: keep only the
entries whose block duration has not yet expired. -/
def blocklistSweep (blocked : Blocklist) (now dur : ℚ) : Blocklist :=
  blocked.filter (fun p => now - p.2 < dur)

/-! ## Capacity check and registration (server.py lines 190-197, 284-300) -/

/-- Connection registration, server.py lines 190-197: at or above
`MAX_USERS` registered sessions the writer is closed and nothing is
registered (`false`); otherwise a fresh `ClientInfo` is stored under the
certificate CN (`true`). -/
def acceptConnection (reg : Registry) (cn ip : String) (maxUsers : ℕ)
    (now : ℚ) : Registry × Bool :=
  if maxUsers ≤ reg.length then (reg, false)
  else (aset reg cn { cn := cn, ip := ip, connected_at := now }, true)

/-- Disconnect cleanup, server.py line 286: `self.clients.pop(cn, None)`. -/
def unregister (reg : Registry) (cn : String) : Registry :=
  aerase reg cn

/-! ## Message validation (server.py, `validate_msg` lines 205-223) -/

/-- `isinstance(msg.get(k), str)` with the `None` default. -/
def isStrOpt : Option JVal → Bool
  | some (.jstr _) => true
  | _ => false

/-- `isinstance(msg.get(k, False), bool)`: an absent field defaults to the
boolean `False` and passes. -/
def isBoolOptD : Option JVal → Bool
  | none => true
  | some (.jbool _) => true
  | _ => false

/-- `isinstance(msg.get(k), bool)`: an absent field defaults to `None` and
fails. -/
def isBoolOpt : Option JVal → Bool
  | some (.jbool _) => true
  | _ => false

/-- `validate_msg`, server.py lines 205-223: a missing or unrecognized
`type` tag fails; each recognized tag checks its required fields. -/
def validate_msg (msg : JObj) : Bool :=
  match jget msg "type" with
  | none => false
  | some (.jstr "init") => isStrOpt (jget msg "name") && isStrOpt (jget msg "ip")
  | some (.jstr "status") =>
      isBoolOptD (jget msg "muted") && isBoolOptD (jget msg "spk_muted")
  | some (.jstr "audio") => isStrOpt (jget msg "data")
  | some (.jstr "muted") => isBoolOpt (jget msg "value")
  | some (.jstr "chat") => isStrOpt (jget msg "text")
  | some _ => false

/-- Fate of one received line in the read loop, server.py lines 226-278. -/
inductive LineResult : Type
  | teardown
  | continueSession
  deriving DecidableEq, Repr

/-- Per-line control flow of the read loop, server.py lines 226-278.  The
line is `raw` (we track its byte string; `json.loads raw` is abstracted as
the `parsed` input, `none` when parsing raises).  An oversized line breaks
the loop; a parse failure is caught by the `except Exception` handler at
line 277, logged, and the loop continues; a parsed message that fails
`validate_msg` breaks the loop; a valid message is handled and the loop
continues. -/
def lineOutcome (raw : String) (parsed : Option JObj) : LineResult :=
  if 4096 < raw.length then .teardown
  else
    match parsed with
    | none => .continueSession
    | some msg => if validate_msg msg then .continueSession else .teardown

/-! ## Broadcasts (server.py lines 306-342) -/

/-- One entry of the user list built in `broadcast_user_list`,
server.py lines 309-317. -/
def userEntry (c : ClientInfo) : JObj :=
  [("name", .jstr c.cn), ("ip", .jstr c.ip), ("tx", .jbool c.tx),
   ("muted", c.muted), ("spk_muted", c.spk_muted)]

/-- The serialized `userlist` message of `broadcast_user_list`,
server.py lines 319-322. -/
def userlistPayload (reg : Registry) : String :=
  "\x7b\"type\": \"userlist\", \"users\": [" ++
    String.intercalate ", " (reg.map (fun p => jdumps (userEntry p.2))) ++
    "]\x7d\n"

/-- The sends of `broadcast_user_list`, server.py lines 324-329: the same
serialized user list goes to every registered client. -/
def userlistSends (reg : Registry) : List Send :=
  reg.map (fun p => ⟨p.1, userlistPayload reg⟩)

/-- The sends of `broadcast`, server.py lines 332-342: the message is
serialized once and written to every registered client except `exclude`. -/
def broadcastSends (reg : Registry) (msg : JObj) (exclude : Option String) :
    List Send :=
  let data := jdumps msg ++ "\n"
  (reg.filter (fun p => !(some p.1 == exclude))).map (fun p => ⟨p.1, data⟩)

/-! ## Message handlers (server.py lines 242-275) -/

/-- String field extraction used on the `init` path (behind `validate_msg`,
which guarantees `name` and `ip` are strings there): `msg.get(k, default)`. -/
def getStrD (m : JObj) (k : String) (d : String) : String :=
  match jget m k with
  | some (.jstr s) => s
  | _ => d

/-- The `init` handler, server.py lines 242-249: overwrite the session's
display name, IP, and both mute flags (the mute values are stored as they
arrived, with no type check), then broadcast the user list; the message is
not forwarded. -/
def handleInit (reg : Registry) (cn peerIp : String) (msg : JObj) :
    Registry × List Send :=
  let reg2 := amodify reg cn (fun c =>
    { c with
      cn := getStrD msg "name" cn,
      ip := getStrD msg "ip" peerIp,
      muted := (jget msg "muted").getD (.jbool false),
      spk_muted := (jget msg "spk_muted").getD (.jbool false) })
  (reg2, userlistSends reg2)

/-- The `audio` handler, server.py lines 258-265: when the message carries
a `data` field, mark the sender transmitting, stamp its last-audio time,
broadcast the user list, and relay the frame to everyone else (the two
broadcast calls are returned separately, in call order); without a `data`
field the message is only logged. -/
def handleAudio (reg : Registry) (cn : String) (msg : JObj) (now : ℚ) :
    Registry × List Send × List Send :=
  if (jget msg "data").isSome then
    let reg2 := amodify reg cn (fun c => { c with tx := true, last_audio := now })
    (reg2, userlistSends reg2, broadcastSends reg2 msg (some cn))
  else (reg, [], [])

/-! ## Voice watcher (server.py, `_voice_watcher` lines 344-356) -/

/-- Per-session body of the watcher loop: `if c.tx and now - c.last_audio >
0.3: c.tx = False`. -/
def tickClear (now : ℚ) (c : ClientInfo) : ClientInfo :=
  if c.tx ∧ now - c.last_audio > 3/10 then { c with tx := false } else c

/-- One 300 ms watcher tick over the registry, server.py lines 349-354. -/
def watcherTick (reg : Registry) (now : ℚ) : Registry :=
  reg.map (fun p => (p.1, tickClear now p.2))

/-- The tick's `dirty` flag: did any session's `tx` get cleared? -/
def watcherDirty (reg : Registry) (now : ℚ) : Bool :=
  reg.any (fun p => p.2.tx && decide (now - p.2.last_audio > 3/10))

/-- Number of coalesced user-list broadcasts one tick issues, server.py
lines 355-356: one when dirty, none otherwise. -/
def watcherBroadcastCount (reg : Registry) (now : ℚ) : ℕ :=
  if watcherDirty reg now then 1 else 0

/-! ## Registry-mutating server operations

The operations of `server.py` that touch `self.clients`, collected so that
the capacity invariant can be stated over every reachable registry. -/

inductive ServerOp : Type
  | connect (cn ip : String) (now : ℚ)
  | disconnect (cn : String)
  | msgInit (cn peerIp : String) (msg : JObj)
  | msgAudio (cn : String) (msg : JObj) (now : ℚ)
  | tick (now : ℚ)

/-- Effect of one operation on the registry. -/
def applyOp (reg : Registry) : ServerOp → Registry
  | .connect cn ip now => (acceptConnection reg cn ip MAX_USERS now).1
  | .disconnect cn => unregister reg cn
  | .msgInit cn peerIp msg => (handleInit reg cn peerIp msg).1
  | .msgAudio cn msg now => (handleAudio reg cn msg now).1
  | .tick now => watcherTick reg now

/-- A run of server operations from a starting registry. -/
def runOps (reg : Registry) (ops : List ServerOp) : Registry :=
  ops.foldl applyOp reg

/-! ## Client audio engine (`client/audio_engine.py`) -/

/-- The playback callback `_output_callback`, audio_engine.py lines
359-382.  The inbound queue is a list of hex packets (front = oldest);
`decode` abstracts `bytes.fromhex` + `opuslib` decode + reshape, `none`
when any of them raises.  Returns the samples written to `outdata` and the
remaining queue.  A hard speaker mute fills silence before the queue is
touched; an empty queue fills silence; a failed decode is caught and fills
silence.  Every branch returns, so the callback never raises and the pop
is `get_nowait`, so it never blocks. -/
def outputCallback (spk_muted : Bool) (queue : List String)
    (decode : String → Option (List Int)) (frames : ℕ) :
    List Int × List String :=
  if spk_muted then (List.replicate frames 0, queue)
  else
    match queue with
    | [] => (List.replicate frames 0, [])
    | pkt :: rest =>
        match decode pkt with
        | some pcm => (pcm, rest)
        | none => (List.replicate frames 0, rest)

/-- Python `asyncio.Queue`: `maxsize` and the items (front = oldest).
`asyncio.Queue()` with no argument has `maxsize = 0`, which Python
documents as an unbounded queue. -/
structure AQueue where
  maxsize : ℕ
  items : List String
  deriving DecidableEq, Repr

/-- Python `Queue.full()`: true only when `0 < maxsize ≤ len(items)`. -/
def AQueue.full (q : AQueue) : Bool :=
  decide (0 < q.maxsize) && decide (q.maxsize ≤ q.items.length)

/-- Python `Queue.put_nowait(x)`: `none` models the raised `QueueFull`. -/
def AQueue.putNowait (q : AQueue) (x : String) : Option AQueue :=
  if q.full then none else some { q with items := q.items ++ [x] }

/-- The inbound-audio queue as `AudioEngine.__init__` creates it,
audio_engine.py line 81: `asyncio.Queue()` — no maxsize argument. -/
def mkIncomingAudioQueue : AQueue :=
  { maxsize := 0, items := [] }

/-- `queue_incoming_audio`, audio_engine.py lines 386-395: `put_nowait`,
with `QueueFull` caught and the incoming packet dropped. -/
def queue_incoming_audio (q : AQueue) (pkt : String) : AQueue :=
  match q.putNowait pkt with
  | some q2 => q2
  | none => q

/-- The inbound queue after `n` packets have been queued into the freshly
constructed engine queue. -/
def audioQueueAfter (n : ℕ) : AQueue :=
  Nat.rec mkIncomingAudioQueue (fun _ q => queue_incoming_audio q "00") n

/-! ## Capture callback (`_input_callback`, audio_engine.py lines 254-322)

The flags the callback reads; `rms` is the computed frame RMS (a float in
the code, embedded as a rational).  Observable effects become events. -/

structure CaptureState where
  mic_muted : Bool
  ptt_enabled : Bool
  ptt_pressed : Bool
  vox_enabled : Bool
  vox_active : Bool
  vox_threshold : ℚ
  deriving DecidableEq, Repr

/-- Observable effects of one capture callback: a `voxActivity` signal, the
`inputLevel` metering signal, and an outbound audio packet queued to the
network thread. -/
inductive CapEvent : Type
  | voxActivity (active : Bool)
  | inputLevel (level : ℚ)
  | sendAudio
  deriving DecidableEq, Repr

/-- The capture callback `_input_callback`, audio_engine.py lines 254-322.
A muted mic returns at once (line 255-257).  With PTT enabled an
unpressed key returns before the metering emit (lines 267-271); with VOX
enabled a frame below threshold updates/reports `vox_active` and returns
(lines 272-280); open mic resets a stale `vox_active` (lines 281-286).
Only frames that get past those gates reach `self.inputLevel.emit(rms /
32768.0)` (line 289) and the encode-and-send step (lines 291-313,
abstracted as `sendAudio`). -/
def inputCallback (st : CaptureState) (rms : ℚ) : CaptureState × List CapEvent :=
  if st.mic_muted then (st, [])
  else if st.ptt_enabled then
    if !st.ptt_pressed then (st, [])
    else (st, [.inputLevel (rms / 32768), .sendAudio])
  else if st.vox_enabled then
    let new_vox : Bool := decide (rms ≥ st.vox_threshold)
    let evs : List CapEvent :=
      if new_vox ≠ st.vox_active then [.voxActivity new_vox] else []
    let st2 := { st with vox_active := new_vox }
    if !new_vox then (st2, evs)
    else (st2, evs ++ [.inputLevel (rms / 32768), .sendAudio])
  else
    if st.vox_active then
      ({ st with vox_active := false },
        [.voxActivity false, .inputLevel (rms / 32768), .sendAudio])
    else (st, [.inputLevel (rms / 32768), .sendAudio])

/-- Does a capture frame get past the mute and gating checks of
`_input_callback` (and hence reach the metering emit)?  This predicate is
the characterization the gating theorem proves about `inputCallback`. -/
def gatePasses (st : CaptureState) (rms : ℚ) : Bool :=
  !st.mic_muted &&
    (if st.ptt_enabled then st.ptt_pressed
     else if st.vox_enabled then decide (rms ≥ st.vox_threshold)
     else true)

/-! ## Client hello (`client/network.py`, `_connect_and_loop` lines 144-154) -/

/-- The `init` message the client sends right after connecting,
network.py lines 145-151: note that both mute flags are sent as the JSON
strings `"True"` and `"False"`, not as booleans. -/
def helloMsg (displayName localIp : String) : JObj :=
  [("type", .jstr "init"), ("name", .jstr displayName), ("ip", .jstr localIp),
   ("spk_muted", .jstr "False"), ("muted", .jstr "True")]

/-! ## General lemmas about the embedded operations -/

theorem alookup_map_snd {α β : Type} (l : List (String × α)) (g : α → β) (k : String) :
    alookup (l.map (fun p => (p.1, g p.2))) k = (alookup l k).map g := by
  induction l with
  | nil => rfl
  | cons p rest ih =>
      by_cases h : p.1 = k
      · simp [alookup, h]
      · simpa [alookup, h] using ih

theorem alookup_isSome_of_mem {α : Type} (l : List (String × α)) (k : String)
    (h : k ∈ akeys l) : ∃ v, alookup l k = some v := by
  induction l with
  | nil => simp [akeys] at h
  | cons p rest ih =>
      by_cases hp : p.1 = k
      · exact ⟨p.2, by simp [alookup, hp]⟩
      · rw [akeys, List.map_cons, List.mem_cons] at h
        rcases h with h | h
        · exact absurd h.symm hp
        · obtain ⟨v, hv⟩ := ih (by rw [akeys]; exact h)
          exact ⟨v, by simpa [alookup, hp] using hv⟩

theorem authCn_allow (wl : List String) (b : Blocklist) (ip : String)
    (cert : Option String) (now : ℚ) (h : certIdentity cert ∈ wl) :
    authCn wl b ip cert now = (.allow, b) := by
  simp [authCn, h]

theorem authCn_deny (wl : List String) (b : Blocklist) (ip : String)
    (cert : Option String) (now : ℚ) (h : certIdentity cert ∉ wl) :
    authCn wl b ip cert now = (.denyCn, aset b ip now) := by
  simp [authCn, h]

theorem authCn_fst_ne_denyBlocked (wl : List String) (b : Blocklist) (ip : String)
    (cert : Option String) (now : ℚ) :
    (authCn wl b ip cert now).1 ≠ .denyBlocked := by
  by_cases h : certIdentity cert ∈ wl <;> simp [authCn, h]

theorem authenticate_lookup_some (wl : List String) (dur : ℚ) (blocked : Blocklist)
    (ip : String) (cert : Option String) (now ts : ℚ)
    (h : alookup blocked ip = some ts) :
    authenticate wl dur blocked ip cert now =
      if now - ts < dur then (.denyBlocked, blocked)
      else authCn wl (aerase blocked ip) ip cert now := by
  unfold authenticate
  rw [h]

theorem authenticate_lookup_none (wl : List String) (dur : ℚ) (blocked : Blocklist)
    (ip : String) (cert : Option String) (now : ℚ)
    (h : alookup blocked ip = none) :
    authenticate wl dur blocked ip cert now = authCn wl blocked ip cert now := by
  unfold authenticate
  rw [h]

/-! ## Claim theorems -/

/-- C1: a connecting peer whose certificate identity is not whitelisted is
denied with `denyCn` and its IP is recorded in the blocklist at the current
time; afterwards any attempt from that IP — whatever certificate it brings,
so before any certificate inspection — is denied by the blocklist check
while less than `BLOCK_DURATION` has elapsed (leaving the blocklist
untouched), and is no longer denied by the blocklist check once
`BLOCK_DURATION` or more has elapsed. -/
theorem auth_whitelist_miss_blocks (wl : List String) (dur : ℚ) (blocked : Blocklist)
    (ip : String) (cert cert2 : Option String) (now t2 : ℚ)
    (hcn : certIdentity cert ∉ wl)
    (hnb : ∀ ts, alookup blocked ip = some ts → dur ≤ now - ts) :
    (authenticate wl dur blocked ip cert now).1 = .denyCn
    ∧ alookup (authenticate wl dur blocked ip cert now).2 ip = some now
    ∧ (t2 - now < dur →
        authenticate wl dur (authenticate wl dur blocked ip cert now).2 ip cert2 t2
          = (.denyBlocked, (authenticate wl dur blocked ip cert now).2))
    ∧ (dur ≤ t2 - now →
        (authenticate wl dur (authenticate wl dur blocked ip cert now).2 ip cert2 t2).1
          ≠ .denyBlocked) := by
  have hkey : ∃ b0, authenticate wl dur blocked ip cert now = (.denyCn, aset b0 ip now) := by
    cases hl : alookup blocked ip with
    | none =>
        exact ⟨blocked, by
          rw [authenticate_lookup_none wl dur blocked ip cert now hl,
            authCn_deny wl blocked ip cert now hcn]⟩
    | some ts =>
        have hnlt : ¬ now - ts < dur := not_lt.mpr (hnb ts hl)
        exact ⟨aerase blocked ip, by
          rw [authenticate_lookup_some wl dur blocked ip cert now ts hl, if_neg hnlt,
            authCn_deny wl (aerase blocked ip) ip cert now hcn]⟩
  obtain ⟨b0, hb⟩ := hkey
  have h2 : alookup (authenticate wl dur blocked ip cert now).2 ip = some now := by
    rw [hb]
    exact alookup_aset_self b0 ip now
  refine ⟨by rw [hb], h2, ?_, ?_⟩
  · intro hlt
    rw [authenticate_lookup_some wl dur _ ip cert2 t2 now h2, if_pos hlt]
  · intro hge
    rw [authenticate_lookup_some wl dur _ ip cert2 t2 now h2,
      if_neg (not_lt.mpr hge)]
    exact authCn_fst_ne_denyBlocked wl _ ip cert2 t2

/-- Witness for C1 at a concrete input: the identity `mallory` is not in
the whitelist `[alice]`, the blocklist starts empty, the block is set at
time 0 and a retry at time 100 (inside the 300-second duration) is denied
by the blocklist check whatever certificate it brings. -/
theorem auth_whitelist_miss_blocks_witness :
    (authenticate ["alice"] 300 [] "1.2.3.4" (some "mallory") 0).1 = .denyCn
    ∧ alookup (authenticate ["alice"] 300 [] "1.2.3.4" (some "mallory") 0).2 "1.2.3.4"
        = some 0
    ∧ ((100 : ℚ) - 0 < 300 →
        authenticate ["alice"] 300
            (authenticate ["alice"] 300 [] "1.2.3.4" (some "mallory") 0).2
            "1.2.3.4" (some "alice") 100
          = (.denyBlocked,
              (authenticate ["alice"] 300 [] "1.2.3.4" (some "mallory") 0).2))
    ∧ ((300 : ℚ) ≤ 100 - 0 →
        (authenticate ["alice"] 300
            (authenticate ["alice"] 300 [] "1.2.3.4" (some "mallory") 0).2
            "1.2.3.4" (some "alice") 100).1 ≠ .denyBlocked) :=
  auth_whitelist_miss_blocks ["alice"] 300 [] "1.2.3.4" (some "mallory") (some "alice")
    0 100 (by decide) (fun ts h => Option.noConfusion h)

/-- C2 counterexample: a 9-byte line that fails JSON parsing (for example
`\x7bnot json`) is caught by the `except Exception` handler and the session
continues — the connection is not torn down, contrary to the claim that a
line that does not parse as JSON tears the connection down. -/
theorem line_malformed_json_tolerated_cex :
    lineOutcome "\x7bnot json" none = .continueSession
    ∧ "\x7bnot json".length ≤ 4096 := by
  exact ⟨rfl, by decide⟩

/-- C2 (amended): an oversized raw line (more than 4096 bytes) tears the
connection down, and so does a parsed JSON object that fails its tag's
required-field schema (including an unrecognized or missing tag); but a
line within the size limit whose JSON parse fails is logged and the
session continues. -/
theorem line_outcome_spec (raw : String) (parsed : Option JObj) :
    (4096 < raw.length → lineOutcome raw parsed = .teardown)
    ∧ (∀ msg, parsed = some msg → validate_msg msg = false →
        raw.length ≤ 4096 → lineOutcome raw parsed = .teardown)
    ∧ (parsed = none → raw.length ≤ 4096 → lineOutcome raw parsed = .continueSession) := by
  refine ⟨?_, ?_, ?_⟩
  · intro h
    simp [lineOutcome, h]
  · intro msg hp hv hle
    simp [lineOutcome, not_lt.mpr hle, hp, hv]
  · intro hp hle
    simp [lineOutcome, not_lt.mpr hle, hp]

/-- C6 counterexample: with a 300-second block duration, an IP blocked at
time 0 that reconnects at time 1000 with a whitelisted certificate has its
expired blocklist entry deleted by the authenticate path itself (the
blocklist comes back empty) — so the periodic sweep is not the sole
remover of expired entries. -/
theorem auth_removes_expired_entry_cex :
    alookup ([("9.9.9.9", (0 : ℚ))] : Blocklist) "9.9.9.9" = some 0
    ∧ (authenticate ["alice"] 300 [("9.9.9.9", 0)] "9.9.9.9" (some "alice") 1000).2
        = [] := by
  constructor
  · decide
  · rw [authenticate_lookup_some ["alice"] 300 [("9.9.9.9", 0)] "9.9.9.9"
        (some "alice") 1000 0 (by decide),
      if_neg (by norm_num), authCn_allow ["alice"] _ "9.9.9.9" (some "alice") 1000
        (by decide)]
    decide

/-- C6 (amended): the periodic sweep keeps exactly the unexpired entries;
the authenticate path also removes an entry, but only the connecting IP's
own expired one — an unexpired entry leaves the blocklist untouched, an
expired entry of a whitelisted peer is deleted, an expired entry of a
non-whitelisted peer is overwritten with the fresh block time, and entries
of other IPs are never changed by authenticate. -/
theorem blocklist_removal_spec (wl : List String) (dur : ℚ) (blocked : Blocklist)
    (ip : String) (cert : Option String) (now : ℚ) :
    (∀ p ∈ blocked, (p ∈ blocklistSweep blocked now dur ↔ now - p.2 < dur))
    ∧ (∀ ip2, ip2 ≠ ip →
        alookup (authenticate wl dur blocked ip cert now).2 ip2 = alookup blocked ip2)
    ∧ (∀ ts, alookup blocked ip = some ts → now - ts < dur →
        (authenticate wl dur blocked ip cert now).2 = blocked)
    ∧ (∀ ts, alookup blocked ip = some ts → dur ≤ now - ts →
        certIdentity cert ∈ wl →
        alookup (authenticate wl dur blocked ip cert now).2 ip = none)
    ∧ (∀ ts, alookup blocked ip = some ts → dur ≤ now - ts →
        certIdentity cert ∉ wl →
        alookup (authenticate wl dur blocked ip cert now).2 ip = some now) := by
  refine ⟨?_, ?_, ?_, ?_, ?_⟩
  · intro p hp
    simp [blocklistSweep, List.mem_filter, hp]
  · intro ip2 hne
    cases hl : alookup blocked ip with
    | none =>
        rw [authenticate_lookup_none wl dur blocked ip cert now hl]
        by_cases hw : certIdentity cert ∈ wl
        · rw [authCn_allow wl blocked ip cert now hw]
        · rw [authCn_deny wl blocked ip cert now hw]
          exact alookup_aset_ne blocked ip ip2 now hne
    | some ts =>
        rw [authenticate_lookup_some wl dur blocked ip cert now ts hl]
        by_cases hlt : now - ts < dur
        · rw [if_pos hlt]
        · rw [if_neg hlt]
          by_cases hw : certIdentity cert ∈ wl
          · rw [authCn_allow wl (aerase blocked ip) ip cert now hw]
            exact alookup_aerase_ne blocked ip ip2 hne
          · rw [authCn_deny wl (aerase blocked ip) ip cert now hw]
            rw [alookup_aset_ne (aerase blocked ip) ip ip2 now hne]
            exact alookup_aerase_ne blocked ip ip2 hne
  · intro ts hl hlt
    rw [authenticate_lookup_some wl dur blocked ip cert now ts hl, if_pos hlt]
  · intro ts hl hge hw
    rw [authenticate_lookup_some wl dur blocked ip cert now ts hl,
      if_neg (not_lt.mpr hge), authCn_allow wl (aerase blocked ip) ip cert now hw]
    exact alookup_aerase_self blocked ip
  · intro ts hl hge hw
    rw [authenticate_lookup_some wl dur blocked ip cert now ts hl,
      if_neg (not_lt.mpr hge), authCn_deny wl (aerase blocked ip) ip cert now hw]
    exact alookup_aset_self (aerase blocked ip) ip now

theorem acceptConnection_length (reg : Registry) (cn ip : String) (m : ℕ) (now : ℚ)
    (h : reg.length ≤ m) : ((acceptConnection reg cn ip m now).1).length ≤ m := by
  unfold acceptConnection
  by_cases hm : m ≤ reg.length
  · simpa [hm] using h
  · have hlt : reg.length < m := lt_of_not_ge hm
    simp only [hm, if_false]
    exact le_trans (length_aset_le reg cn _) (Nat.succ_le_of_lt hlt)

theorem applyOp_length (reg : Registry) (op : ServerOp)
    (h : reg.length ≤ MAX_USERS) : (applyOp reg op).length ≤ MAX_USERS := by
  cases op with
  | connect cn ip now => exact acceptConnection_length reg cn ip MAX_USERS now h
  | disconnect cn => exact le_trans (length_aerase_le reg cn) h
  | msgInit cn peerIp msg =>
      show ((handleInit reg cn peerIp msg).1).length ≤ MAX_USERS
      unfold handleInit
      simpa [length_amodify] using h
  | msgAudio cn msg now =>
      show ((handleAudio reg cn msg now).1).length ≤ MAX_USERS
      unfold handleAudio
      by_cases hd : (jget msg "data").isSome
      · simpa [hd, length_amodify] using h
      · simpa [hd] using h
  | tick now =>
      show (watcherTick reg now).length ≤ MAX_USERS
      unfold watcherTick
      simpa using h

theorem runOps_length (reg : Registry) (ops : List ServerOp)
    (h : reg.length ≤ MAX_USERS) : (runOps reg ops).length ≤ MAX_USERS := by
  induction ops generalizing reg with
  | nil => exact h
  | cons op rest ih => exact ih (applyOp reg op) (applyOp_length reg op h)

/-- C3: every reachable registry (any run of server operations starting
within capacity) holds at most `MAX_USERS` sessions; a connection arriving
when the registry is at or above `MAX_USERS` is rejected with the registry
unchanged, so a fresh identity never appears in any broadcast snapshot
entry; and unregistering an absent identity leaves the registry
unchanged. -/
theorem registry_capacity_spec (reg : Registry) (cn ip : String) (now : ℚ)
    (ops : List ServerOp) (hinv : reg.length ≤ MAX_USERS) :
    (runOps reg ops).length ≤ MAX_USERS
    ∧ (MAX_USERS ≤ reg.length → acceptConnection reg cn ip MAX_USERS now = (reg, false))
    ∧ (MAX_USERS ≤ reg.length → (∀ p ∈ reg, p.2.cn ≠ cn) →
        ∀ e ∈ (acceptConnection reg cn ip MAX_USERS now).1.map
            (fun p => userEntry p.2),
          jget e "name" ≠ some (.jstr cn))
    ∧ (cn ∉ akeys reg → unregister reg cn = reg) := by
  refine ⟨runOps_length reg ops hinv, ?_, ?_, ?_⟩
  · intro hfull
    unfold acceptConnection
    simp [hfull]
  · intro hfull hfresh e he
    have hr : (acceptConnection reg cn ip MAX_USERS now).1 = reg := by
      unfold acceptConnection
      simp [hfull]
    rw [hr] at he
    obtain ⟨p, hp, hpe⟩ := List.mem_map.mp he
    intro hname
    rw [← hpe] at hname
    simp [userEntry, jget] at hname
    exact hfresh p hp hname
  · intro hnk
    exact aerase_of_not_mem reg cn hnk

/-- Witness for C3 at a concrete input: one connect operation from the
empty registry keeps the session count within `MAX_USERS`. -/
theorem registry_capacity_spec_witness :
    (runOps [] [ServerOp.connect "alice" "10.0.0.1" 0]).length ≤ MAX_USERS :=
  (registry_capacity_spec [] "alice" "10.0.0.1" 0
    [ServerOp.connect "alice" "10.0.0.1" 0] (by decide)).1

theorem count_sends_payload_zero (l : Registry) (pay pay2 : String) (k : String)
    (hk : k ∉ akeys l) :
    ((l.map (fun p => Send.mk p.1 pay)).count ⟨k, pay2⟩) = 0 := by
  induction l with
  | nil => rfl
  | cons hd rest ih =>
      rw [akeys, List.map_cons, List.mem_cons, not_or] at hk
      obtain ⟨hp, hrest⟩ := hk
      rw [List.map_cons, List.count_cons]
      have hne : ¬ Send.mk hd.1 pay = Send.mk k pay2 := by
        intro he
        exact hp (by injection he with h1 h2; exact h1.symm ▸ rfl)
      have h0 := ih (by rw [akeys]; exact hrest)
      simp [h0, hne]

theorem count_sends_payload_one (l : Registry) (pay : String) (k : String)
    (hnd : (akeys l).Nodup) (hk : k ∈ akeys l) :
    ((l.map (fun p => Send.mk p.1 pay)).count ⟨k, pay⟩) = 1 := by
  induction l with
  | nil => simp [akeys] at hk
  | cons hd rest ih =>
      rw [akeys, List.map_cons, List.nodup_cons] at hnd
      obtain ⟨hpn, hrest⟩ := hnd
      rw [akeys, List.map_cons, List.mem_cons] at hk
      rw [List.map_cons, List.count_cons]
      rcases hk with hk | hk
      · subst hk
        have h0 : (rest.map (fun p => Send.mk p.1 pay)).count ⟨hd.1, pay⟩ = 0 :=
          count_sends_payload_zero rest pay pay hd.1 (by rw [akeys]; exact hpn)
        simp [h0]
      · have hp : ¬ Send.mk hd.1 pay = Send.mk k pay := by
          intro he
          injection he with h1 h2
          exact hpn (h1 ▸ hk)
        have h1 := ih (by rw [akeys]; exact hrest) (by rw [akeys]; exact hk)
        simp [h1, hp]

theorem akeys_filter_nodup (l : Registry) (f : String × ClientInfo → Bool)
    (hnd : (akeys l).Nodup) : (akeys (l.filter f)).Nodup := by
  have hsub : List.Sublist (akeys (l.filter f)) (akeys l) :=
    List.Sublist.map _ (List.filter_sublist l)
  exact List.Nodup.sublist hsub hnd

theorem mem_akeys_filter_excl (l : Registry) (cn k : String)
    (hk : k ∈ akeys l) (hne : k ≠ cn) :
    k ∈ akeys (l.filter (fun p => !(some p.1 == some cn))) := by
  rw [akeys, List.mem_map] at hk
  obtain ⟨p, hp, hpk⟩ := hk
  rw [akeys, List.mem_map]
  refine ⟨p, List.mem_filter.mpr ⟨hp, ?_⟩, hpk⟩
  have hpc : p.1 ≠ cn := by
    intro he
    exact hne (hpk ▸ he ▸ rfl)
  simp [hpc]

theorem count_broadcastSends_one (l : Registry) (msg : JObj) (cn k : String)
    (hnd : (akeys l).Nodup) (hk : k ∈ akeys l) (hne : k ≠ cn) :
    (broadcastSends l msg (some cn)).count ⟨k, jdumps msg ++ "\n"⟩ = 1 := by
  show ((l.filter (fun p => !(some p.1 == some cn))).map
      (fun p => Send.mk p.1 (jdumps msg ++ "\n"))).count ⟨k, jdumps msg ++ "\n"⟩ = 1
  exact count_sends_payload_one _ _ k (akeys_filter_nodup l _ hnd)
    (mem_akeys_filter_excl l cn k hk hne)

theorem mem_broadcastSends_excl (l : Registry) (msg : JObj) (cn : String) (s : Send)
    (hs : s ∈ broadcastSends l msg (some cn)) :
    s.dest ≠ cn ∧ s.payload = jdumps msg ++ "\n" ∧ s.dest ∈ akeys l := by
  have hs2 : s ∈ (l.filter (fun p => !(some p.1 == some cn))).map
      (fun p => Send.mk p.1 (jdumps msg ++ "\n")) := hs
  rw [List.mem_map] at hs2
  obtain ⟨p, hpf, hps⟩ := hs2
  obtain ⟨hpl, hcond⟩ := List.mem_filter.mp hpf
  have hdest : s.dest = p.1 := by rw [← hps]
  have hpay : s.payload = jdumps msg ++ "\n" := by rw [← hps]
  refine ⟨?_, hpay, ?_⟩
  · rw [hdest]
    intro he
    rw [he] at hcond
    simp at hcond
  · rw [hdest, akeys, List.mem_map]
    exact ⟨p, hpl, rfl⟩

/-- C4: a well-formed `audio` message from registered peer `cn` (whose
`data` field is a string) marks `cn` as transmitting with its last-audio
time stamped `now`, keeps the registry keys unchanged, triggers one
user-list snapshot send to every registered peer, and relays one copy of
the serialized message to every other registered peer — every relayed send
carries the identical bytes, goes to a registered peer, and never goes
back to `cn`. -/
theorem audio_relay_spec (reg : Registry) (cn : String) (msg : JObj) (now : ℚ)
    (d : String) (hnd : (akeys reg).Nodup) (hmem : cn ∈ akeys reg)
    (hdata : jget msg "data" = some (.jstr d)) :
    (∃ c, alookup (handleAudio reg cn msg now).1 cn = some c
        ∧ c.tx = true ∧ c.last_audio = now)
    ∧ akeys (handleAudio reg cn msg now).1 = akeys reg
    ∧ (∀ k, k ∈ akeys reg →
        ((handleAudio reg cn msg now).2.1).count
          ⟨k, userlistPayload (handleAudio reg cn msg now).1⟩ = 1)
    ∧ (∀ k, k ∈ akeys reg → k ≠ cn →
        ((handleAudio reg cn msg now).2.2).count ⟨k, jdumps msg ++ "\n"⟩ = 1)
    ∧ (∀ s ∈ (handleAudio reg cn msg now).2.2,
        s.dest ≠ cn ∧ s.payload = jdumps msg ++ "\n" ∧ s.dest ∈ akeys reg) := by
  have hsome : (jget msg "data").isSome = true := by rw [hdata]; rfl
  have heq : handleAudio reg cn msg now
      = (amodify reg cn (fun c => { c with tx := true, last_audio := now }),
          userlistSends (amodify reg cn (fun c => { c with tx := true, last_audio := now })),
          broadcastSends (amodify reg cn (fun c => { c with tx := true, last_audio := now }))
            msg (some cn)) := by
    unfold handleAudio
    rw [hsome]
    simp
  have hkeys : akeys (amodify reg cn (fun c => { c with tx := true, last_audio := now }))
      = akeys reg := akeys_amodify reg cn _
  refine ⟨?_, ?_, ?_, ?_, ?_⟩
  · obtain ⟨c0, hc0⟩ := alookup_isSome_of_mem reg cn hmem
    refine ⟨{ c0 with tx := true, last_audio := now }, ?_, rfl, rfl⟩
    rw [heq]
    exact alookup_amodify_self reg cn _ c0 hc0
  · rw [heq]
    exact hkeys
  · intro k hk
    rw [heq]
    show ((amodify reg cn (fun c => { c with tx := true, last_audio := now })).map
        (fun p => Send.mk p.1 (userlistPayload _))).count ⟨k, userlistPayload _⟩ = 1
    exact count_sends_payload_one _ _ k (by rw [hkeys]; exact hnd)
      (by rw [hkeys]; exact hk)
  · intro k hk hne
    rw [heq]
    exact count_broadcastSends_one _ msg cn k (by rw [hkeys]; exact hnd)
      (by rw [hkeys]; exact hk) hne
  · intro s hs
    rw [heq] at hs
    have := mem_broadcastSends_excl _ msg cn s hs
    rw [hkeys] at this
    exact this

/-- Witness for C4 at a concrete input: with `alice` and `bob` registered,
an `audio` message from `alice` leaves `alice` marked transmitting with
last-audio time 5. -/
theorem audio_relay_spec_witness :
    ∃ c, alookup (handleAudio
        [("alice", { cn := "alice", ip := "10.0.0.1" }),
         ("bob", { cn := "bob", ip := "10.0.0.2" })]
        "alice" [("type", .jstr "audio"), ("data", .jstr "00")] 5).1 "alice" = some c
      ∧ c.tx = true ∧ c.last_audio = 5 :=
  (audio_relay_spec
    [("alice", { cn := "alice", ip := "10.0.0.1" }),
     ("bob", { cn := "bob", ip := "10.0.0.2" })]
    "alice" [("type", .jstr "audio"), ("data", .jstr "00")] 5 "00"
    (by decide) (by decide) (by decide)).1

theorem watcherTick_alookup (reg : Registry) (T : ℚ) (k : String) :
    alookup (watcherTick reg T) k = (alookup reg k).map (tickClear T) := by
  unfold watcherTick
  exact alookup_map_snd reg (tickClear T) k

theorem tickClear_eq_self_iff (now : ℚ) (c : ClientInfo) :
    tickClear now c = c ↔ ¬(c.tx = true ∧ now - c.last_audio > 3/10) := by
  constructor
  · intro he hcond
    rw [tickClear, if_pos hcond] at he
    have h2 := congrArg ClientInfo.tx he
    simp [hcond.1] at h2
  · intro hn
    rw [tickClear, if_neg hn]

theorem watcherDirty_iff_changed (reg : Registry) (now : ℚ) :
    watcherDirty reg now = true ↔ watcherTick reg now ≠ reg := by
  induction reg with
  | nil => simp [watcherDirty, watcherTick]
  | cons p rest ih =>
      by_cases hc : p.2.tx = true ∧ now - p.2.last_audio > 3/10
      · have hd : watcherDirty (p :: rest) now = true := by
          simp [watcherDirty, hc.1, hc.2]

        have hne : watcherTick (p :: rest) now ≠ p :: rest := by
          intro he
          rw [watcherTick, List.map_cons] at he
          injection he with h1 h2
          have h3 : tickClear now p.2 = p.2 := congrArg Prod.snd h1
          exact (tickClear_eq_self_iff now p.2).mp h3 hc
        simp [hd, hne]
      · have hself : tickClear now p.2 = p.2 := (tickClear_eq_self_iff now p.2).mpr hc
        have hd : watcherDirty (p :: rest) now = watcherDirty rest now := by
          rw [watcherDirty, watcherDirty, List.any_cons]
          have hb : (p.2.tx && decide (now - p.2.last_audio > 3/10)) = false := by
            by_cases h1 : p.2.tx = true
            · have h2 : ¬ now - p.2.last_audio > 3/10 := fun h2 => hc ⟨h1, h2⟩
              simp [h1, h2]
            · have h3 : p.2.tx = false := Bool.eq_false_iff.mpr h1
              simp [h3]
          rw [hb]
          simp
        have ht : watcherTick (p :: rest) now = p :: watcherTick rest now := by
          rw [watcherTick, List.map_cons, hself]
          exact rfl
        rw [hd, ih, ht]
        constructor
        · intro hne he
          injection he with h1 h2
          exact hne h2
        · intro hne he
          exact hne (by rw [he])

/-- C5: one watcher tick at time `now` maps every session to itself except
that `tx` is cleared exactly when it was set and more than 300 ms have
passed since the session's last audio (all other fields survive); the tick
issues exactly one coalesced user-list broadcast when some session
changed and none when none did; and for a registered transmitting session
with last audio at `L`, every tick at or before `L + 300 ms` leaves it
transmitting while some tick time `t0 + 300ms·n` in the window
`(L + 300 ms, L + 300 ms + one 300 ms tick]` clears it. -/
theorem voice_watcher_spec (reg : Registry) (now t0 L : ℚ) (cn : String)
    (c : ClientInfo) (hc : alookup reg cn = some c) (htx : c.tx = true)
    (hL : c.last_audio = L) (ht0 : t0 ≤ L + 3/10) :
    (∀ k c2, alookup reg k = some c2 →
        alookup (watcherTick reg now) k = some (tickClear now c2)
        ∧ (tickClear now c2).tx
            = (c2.tx && !(decide (now - c2.last_audio > 3/10)))
        ∧ (tickClear now c2).last_audio = c2.last_audio
        ∧ (tickClear now c2).muted = c2.muted
        ∧ (tickClear now c2).spk_muted = c2.spk_muted)
    ∧ (watcherBroadcastCount reg now = 1 ↔ watcherTick reg now ≠ reg)
    ∧ (watcherBroadcastCount reg now = 0 ↔ watcherTick reg now = reg)
    ∧ (∀ T : ℚ, T ≤ L + 3/10 →
        ∃ c4, alookup (watcherTick reg T) cn = some c4 ∧ c4.tx = true)
    ∧ (∃ n : ℕ, L + 3/10 < t0 + 3/10 * (n : ℚ)
        ∧ t0 + 3/10 * (n : ℚ) ≤ L + 3/10 + 3/10
        ∧ ∃ c5, alookup (watcherTick reg (t0 + 3/10 * (n : ℚ))) cn = some c5
            ∧ c5.tx = false) := by
  refine ⟨?_, ?_, ?_, ?_, ?_⟩
  · intro k c2 hk
    refine ⟨by rw [watcherTick_alookup, hk]; rfl, ?_, ?_, ?_, ?_⟩
    · by_cases hcond : c2.tx = true ∧ now - c2.last_audio > 3/10
      · simp [tickClear, hcond.1, hcond.2]
      · rw [tickClear, if_neg hcond]
        by_cases ht2 : c2.tx = true
        · have hng : ¬ now - c2.last_audio > 3/10 := fun hg => hcond ⟨ht2, hg⟩
          simp [ht2, hng]
        · simp [Bool.eq_false_iff.mpr ht2]
    · by_cases hcond : c2.tx = true ∧ now - c2.last_audio > 3/10
      · rw [tickClear, if_pos hcond]
      · rw [tickClear, if_neg hcond]
    · by_cases hcond : c2.tx = true ∧ now - c2.last_audio > 3/10
      · rw [tickClear, if_pos hcond]
      · rw [tickClear, if_neg hcond]
    · by_cases hcond : c2.tx = true ∧ now - c2.last_audio > 3/10
      · rw [tickClear, if_pos hcond]
      · rw [tickClear, if_neg hcond]
  · by_cases hd : watcherDirty reg now = true
    · have hne := (watcherDirty_iff_changed reg now).mp hd
      simp [watcherBroadcastCount, hd, hne]
    · have heq : watcherTick reg now = reg := by
        by_contra hne
        exact hd ((watcherDirty_iff_changed reg now).mpr hne)
      simp [watcherBroadcastCount, Bool.eq_false_iff.mpr hd, heq]
  · by_cases hd : watcherDirty reg now = true
    · have hne := (watcherDirty_iff_changed reg now).mp hd
      simp [watcherBroadcastCount, hd, hne]
    · have heq : watcherTick reg now = reg := by
        by_contra hne
        exact hd ((watcherDirty_iff_changed reg now).mpr hne)
      simp [watcherBroadcastCount, Bool.eq_false_iff.mpr hd, heq]
  · intro T hT
    refine ⟨tickClear T c, by rw [watcherTick_alookup, hc]; rfl, ?_⟩
    have hno : ¬(c.tx = true ∧ T - c.last_audio > 3/10) := by
      intro h
      have hle : T - c.last_audio ≤ 3/10 := by rw [hL]; linarith
      exact absurd h.2 (not_lt.mpr hle)
    rw [tickClear, if_neg hno]
    exact htx
  · have hq0 : (0 : ℚ) ≤ (L + 3/10 - t0) / (3/10) :=
      div_nonneg (by linarith) (by norm_num)
    have h1 : (L + 3/10 - t0) / (3/10)
        < (Nat.floor ((L + 3/10 - t0) / (3/10)) : ℚ) + 1 :=
      Nat.lt_floor_add_one _
    have hfl : (Nat.floor ((L + 3/10 - t0) / (3/10)) : ℚ)
        ≤ (L + 3/10 - t0) / (3/10) := Nat.floor_le hq0
    have h3 : (3 : ℚ)/10 * ((L + 3/10 - t0) / (3/10)) = L + 3/10 - t0 := by
      field_simp
      ring
    have hcast : ((Nat.floor ((L + 3/10 - t0) / (3/10)) + 1 : ℕ) : ℚ)
        = (Nat.floor ((L + 3/10 - t0) / (3/10)) : ℚ) + 1 := by
      push_cast
      ring
    have hlow : L + 3/10
        < t0 + 3/10 * ((Nat.floor ((L + 3/10 - t0) / (3/10)) + 1 : ℕ) : ℚ) := by
      rw [hcast]
      nlinarith
    have hup : t0 + 3/10 * ((Nat.floor ((L + 3/10 - t0) / (3/10)) + 1 : ℕ) : ℚ)
        ≤ L + 3/10 + 3/10 := by
      rw [hcast]
      nlinarith
    refine ⟨Nat.floor ((L + 3/10 - t0) / (3/10)) + 1, hlow, hup, ?_⟩
    refine ⟨tickClear (t0 + 3/10 * ((Nat.floor ((L + 3/10 - t0) / (3/10)) + 1 : ℕ) : ℚ)) c,
      by rw [watcherTick_alookup, hc]; rfl, ?_⟩
    have hgt : t0 + 3/10 * ((Nat.floor ((L + 3/10 - t0) / (3/10)) + 1 : ℕ) : ℚ)
        - c.last_audio > 3/10 := by
      rw [hL]
      linarith
    rw [tickClear, if_pos ⟨htx, hgt⟩]

/-- Witness for C5 at a concrete input: one registered session `alice`
transmitting with last audio at time 0, watcher started at time 0: some
tick in the window `(0.3, 0.6]` clears its transmitting flag. -/
theorem voice_watcher_spec_witness :
    ∃ n : ℕ, (0 : ℚ) + 3/10 < 0 + 3/10 * (n : ℚ)
      ∧ (0 : ℚ) + 3/10 * (n : ℚ) ≤ 0 + 3/10 + 3/10
      ∧ ∃ c5, alookup (watcherTick
            [("alice", { cn := "alice", ip := "10.0.0.1", tx := true })]
            ((0 : ℚ) + 3/10 * (n : ℚ))) "alice" = some c5
          ∧ c5.tx = false :=
  (voice_watcher_spec [("alice", { cn := "alice", ip := "10.0.0.1", tx := true })]
    1 0 0 "alice" { cn := "alice", ip := "10.0.0.1", tx := true }
    (by simp [alookup]) rfl rfl (by norm_num)).2.2.2.2

/-- C7: the playback callback always fills the output buffer and never
raises or blocks: a hard speaker mute emits silence without touching the
queue; an empty queue emits silence; a packet whose hex/codec decode fails
is caught and emits silence with the packet consumed; a good packet is
written to the buffer. -/
theorem output_callback_spec (spk : Bool) (queue : List String)
    (decode : String → Option (List Int)) (frames : ℕ) :
    (spk = true →
      outputCallback spk queue decode frames = (List.replicate frames 0, queue))
    ∧ (spk = false → queue = [] →
        outputCallback spk queue decode frames = (List.replicate frames 0, []))
    ∧ (∀ pkt rest, spk = false → queue = pkt :: rest → decode pkt = none →
        outputCallback spk queue decode frames = (List.replicate frames 0, rest))
    ∧ (∀ pkt rest pcm, spk = false → queue = pkt :: rest → decode pkt = some pcm →
        outputCallback spk queue decode frames = (pcm, rest)) := by
  refine ⟨?_, ?_, ?_, ?_⟩
  · intro h
    simp [outputCallback, h]
  · intro h hq
    simp [outputCallback, h, hq]
  · intro pkt rest h hq hd
    simp [outputCallback, h, hq, hd]
  · intro pkt rest pcm h hq hd
    simp [outputCallback, h, hq, hd]

/-- C8: the inbound-audio queue `AudioEngine.__init__` creates is
`asyncio.Queue()` with `maxsize = 0`, i.e. unbounded: after any number of
enqueues it holds every packet, `full()` is never true, and the next
`put_nowait` still appends instead of raising — so the drop-on-overflow
handler can never fire and the queue grows without bound, contrary to the
claim that it is bounded with the newest packet dropped on overflow. -/
theorem audio_queue_unbounded (n : ℕ) :
    (audioQueueAfter n).maxsize = 0
    ∧ (audioQueueAfter n).items.length = n
    ∧ (audioQueueAfter n).full = false
    ∧ queue_incoming_audio (audioQueueAfter n) "00"
        = { audioQueueAfter n with items := (audioQueueAfter n).items ++ ["00"] } := by
  induction n with
  | zero => exact ⟨rfl, rfl, rfl, rfl⟩
  | succ m ih =>
      obtain ⟨hm, hl, hf, he⟩ := ih
      have h1 : audioQueueAfter (m + 1)
          = { audioQueueAfter m with items := (audioQueueAfter m).items ++ ["00"] } := he
      refine ⟨?_, ?_, ?_, ?_⟩
      · rw [h1]
        exact hm
      · rw [h1]
        simp [hl]
      · rw [h1]
        simp [AQueue.full, hm]
      · rw [h1]
        simp [queue_incoming_audio, AQueue.putNowait, AQueue.full, hm]

/-- C9 counterexample: with the microphone hard-muted the capture callback
returns at once and emits nothing — in particular no RMS metering event —
contradicting the claim that an RMS value is emitted regardless of
mic-mute state. -/
theorem input_rms_not_emitted_when_muted_cex :
    (inputCallback
      { mic_muted := true, ptt_enabled := false, ptt_pressed := false,
        vox_enabled := false, vox_active := false, vox_threshold := 1/100 }
      100).2 = [] := rfl

/-- C9 (amended): the RMS metering event is emitted exactly for the frames
that pass the gates — mic not hard-muted, PTT pressed when PTT is enabled,
RMS at or above threshold when VOX is enabled (open mic always passes) —
and the emitted value `rms / 32768` lies in `[0, 1]` whenever the frame
RMS lies in the 16-bit range. -/
theorem input_rms_gated_spec (st : CaptureState) (rms : ℚ) :
    (gatePasses st rms = true →
      CapEvent.inputLevel (rms / 32768) ∈ (inputCallback st rms).2)
    ∧ (gatePasses st rms = false →
        ∀ q, CapEvent.inputLevel q ∉ (inputCallback st rms).2)
    ∧ (0 ≤ rms → rms ≤ 32768 → 0 ≤ rms / 32768 ∧ rms / 32768 ≤ 1) := by
  refine ⟨?_, ?_, ?_⟩
  · intro hg
    by_cases hm : st.mic_muted = true
    · rw [gatePasses] at hg
      simp [hm] at hg
    · have hm2 : st.mic_muted = false := Bool.eq_false_iff.mpr hm
      by_cases hp : st.ptt_enabled = true
      · rw [gatePasses] at hg
        simp [hm2, hp] at hg
        simp [inputCallback, hm2, hp, hg]
      · have hp2 : st.ptt_enabled = false := Bool.eq_false_iff.mpr hp
        by_cases hv : st.vox_enabled = true
        · rw [gatePasses] at hg
          simp [hm2, hp2, hv] at hg
          simp [inputCallback, hm2, hp2, hv, hg]
        · have hv2 : st.vox_enabled = false := Bool.eq_false_iff.mpr hv
          by_cases ha : st.vox_active = true
          · simp [inputCallback, hm2, hp2, hv2, ha]
          · simp [inputCallback, hm2, hp2, hv2, Bool.eq_false_iff.mpr ha]
  · intro hg q
    by_cases hm : st.mic_muted = true
    · simp [inputCallback, hm]
    · have hm2 : st.mic_muted = false := Bool.eq_false_iff.mpr hm
      by_cases hp : st.ptt_enabled = true
      · rw [gatePasses] at hg
        simp [hm2, hp] at hg
        simp [inputCallback, hm2, hp, hg]
      · have hp2 : st.ptt_enabled = false := Bool.eq_false_iff.mpr hp
        by_cases hv : st.vox_enabled = true
        · rw [gatePasses] at hg
          simp [hm2, hp2, hv] at hg
          simp [inputCallback, hm2, hp2, hv, hg]
        · rw [gatePasses] at hg
          simp [hm2, hp2, hv] at hg
  · intro h0 h1
    refine ⟨div_nonneg h0 (by norm_num), ?_⟩
    rw [div_le_one (by norm_num)]
    exact h1

/-- C10: the client's `init` hello encodes `muted` as the JSON string
`"True"` and `spk_muted` as the JSON string `"False"`; the server's schema
check accepts it (init only checks `name` and `ip`) and its init handler
stores both values unchecked, so after init the registered session's two
mute flags are non-empty strings, both truthy under Python `bool()` — the
speaker-mute flag reads as muted even though the client sent `"False"`. -/
theorem init_string_mutes_spec (reg : Registry) (cn peerIp dn lip : String)
    (c : ClientInfo) (hc : alookup reg cn = some c) :
    validate_msg (helloMsg dn lip) = true
    ∧ ∃ c2, alookup (handleInit reg cn peerIp (helloMsg dn lip)).1 cn = some c2
        ∧ c2.muted = .jstr "True" ∧ c2.spk_muted = .jstr "False"
        ∧ truthy c2.muted = true ∧ truthy c2.spk_muted = true := by
  constructor
  · rfl
  · have hval : alookup (handleInit reg cn peerIp (helloMsg dn lip)).1 cn
        = some { c with
                 cn := dn, ip := lip,
                 muted := JVal.jstr "True", spk_muted := JVal.jstr "False" } :=
      alookup_amodify_self reg cn _ c hc
    exact ⟨_, hval, rfl, rfl, rfl, rfl⟩

/-- Witness for C10 at a concrete input: the registered session `host1`
ends up with both mute flags stored as truthy strings after the client's
hello. -/
theorem init_string_mutes_spec_witness :
    validate_msg (helloMsg "Display" "192.168.0.2") = true
    ∧ ∃ c2, alookup (handleInit [("host1", { cn := "host1", ip := "9.9.9.9" })]
          "host1" "9.9.9.9" (helloMsg "Display" "192.168.0.2")).1 "host1" = some c2
        ∧ c2.muted = .jstr "True" ∧ c2.spk_muted = .jstr "False"
        ∧ truthy c2.muted = true ∧ truthy c2.spk_muted = true :=
  init_string_mutes_spec [("host1", { cn := "host1", ip := "9.9.9.9" })]
    "host1" "9.9.9.9" "Display" "192.168.0.2" { cn := "host1", ip := "9.9.9.9" }
    (by simp [alookup])

end PackHowl
